import Mathlib

/-!
Verification development for the argus visual-regression tool.

The development shallowly embeds the crawler / explorer / comparison code:

* `Crawler` models `src/explorer/crawler.ts` (URL normalization and the
  crawl filter used by the Playwright explorer).
* `Pupp` models `src/explorer/puppeteer-explorer.ts` (the Puppeteer
  explorer engine: frontier queue, visited set, authentication state
  machine, interactive credential prompt).
* `Diff` models `src/diff/image-diff.ts` and `src/diff/comparison-engine.ts`
  (pair classification of baseline/current screenshots).

Strings are modelled as `List Char`.  The WHATWG `URL` platform class used
by the source is modelled by `UrlModel.parseUrl`, an executable parser for
`scheme://host[:port]/path[?query][#fragment]` URLs.  Modelled scope: the
scheme must be a nonempty alphabetic token followed by the literal `://`
and a nonempty host (this matches the behaviour of `new URL` on the
http/https URLs the crawler works with; exotic scheme-relative and
non-special-scheme forms are treated as unparsable).  Case of scheme and
host is preserved by the parser; origin comparison folds letter case the
way the platform's origin getter does.  Default-port elision by the
platform serializer is not modelled.
-/

namespace UrlModel

/-- Everything of `l` strictly before the first occurrence of `c`, paired
with the remainder after that occurrence (`none` when `c` does not occur).
Models JavaScript `indexOf`/`slice` splitting on a separator character. -/
def splitFirst : List Char → Char → List Char × Option (List Char)
  | [], _ => ([], none)
  | a :: as, c =>
    if a = c then ([], some as)
    else
      let r := splitFirst as c
      (a :: r.1, r.2)

theorem splitFirst_of_not_mem {l : List Char} {c : Char} (h : c ∉ l) :
    splitFirst l c = (l, none) := by
  induction l with
  | nil => rfl
  | cons a as ih =>
    simp only [List.mem_cons, not_or] at h
    simp [splitFirst, Ne.symm h.1, ih h.2]

theorem splitFirst_append {l₁ l₂ : List Char} {c : Char} (h : c ∉ l₁) :
    splitFirst (l₁ ++ c :: l₂) c = (l₁, some l₂) := by
  induction l₁ with
  | nil => simp [splitFirst]
  | cons a as ih =>
    simp only [List.mem_cons, not_or] at h
    simp [splitFirst, Ne.symm h.1, ih h.2]

theorem splitFirst_not_mem_fst (l : List Char) (c : Char) :
    c ∉ (splitFirst l c).1 := by
  induction l with
  | nil => simp [splitFirst]
  | cons a as ih =>
    by_cases h : a = c
    · simp [splitFirst, h]
    · simp [splitFirst, h, ih, Ne.symm h]

theorem splitFirst_eq_append (l : List Char) (c : Char) :
    l = (splitFirst l c).1 ++
      (match (splitFirst l c).2 with
       | some r => c :: r
       | none => []) := by
  induction l with
  | nil => simp [splitFirst]
  | cons a as ih =>
    by_cases h : a = c
    · simp [splitFirst, h]
    · simp only [splitFirst, if_neg h]
      exact congrArg (a :: ·) ih

theorem mem_of_mem_splitFirst_fst {l : List Char} {c x : Char}
    (h : x ∈ (splitFirst l c).1) : x ∈ l := by
  induction l with
  | nil => simp [splitFirst] at h
  | cons a as ih =>
    by_cases hac : a = c
    · simp [splitFirst, hac] at h
    · simp only [splitFirst, if_neg hac] at h
      rcases List.mem_cons.mp h with h | h
      · exact h ▸ List.mem_cons_self a as
      · exact List.mem_cons_of_mem a (ih h)

theorem mem_of_mem_splitFirst_snd {l r : List Char} {c x : Char}
    (hr : (splitFirst l c).2 = some r) (h : x ∈ r) : x ∈ l := by
  induction l with
  | nil => simp [splitFirst] at hr
  | cons a as ih =>
    by_cases hac : a = c
    · simp only [splitFirst, if_pos hac] at hr
      cases hr
      exact List.mem_cons_of_mem a h
    · simp only [splitFirst, if_neg hac] at hr
      exact List.mem_cons_of_mem a (ih hr)

/-- Splits `scheme://rest`: the text before the first `:` when that colon is
immediately followed by `//`.  Models how `new URL` consumes the scheme for
the special (http-like) URLs in the modelled scope. -/
def splitScheme (l : List Char) : Option (List Char × List Char) :=
  match splitFirst l ':' with
  | (bef, some ('/' :: '/' :: rest)) => some (bef, rest)
  | _ => none

theorem splitScheme_append {sch rest : List Char} (h : ':' ∉ sch) :
    splitScheme (sch ++ ':' :: '/' :: '/' :: rest) = some (sch, rest) := by
  simp [splitScheme, splitFirst_append h]

theorem splitScheme_parts {l sch rest : List Char}
    (h : splitScheme l = some (sch, rest)) :
    l = sch ++ ':' :: '/' :: '/' :: rest ∧ ':' ∉ sch := by
  unfold splitScheme at h
  split at h
  · rename_i bef r hsf
    simp only [Option.some.injEq, Prod.mk.injEq] at h
    obtain ⟨h1, h2⟩ := h
    subst h1; subst h2
    constructor
    · have := splitFirst_eq_append l ':'
      rw [hsf] at this
      simpa using this
    · have := splitFirst_not_mem_fst l ':'
      rw [hsf] at this
      exact this
  · exact absurd h (by simp)

/-- Splits `host/path` at the first `/`; a missing path becomes `/`,
matching how `new URL("http://h")` reports pathname `/`. -/
def splitHostPath (l : List Char) : List Char × List Char :=
  match splitFirst l '/' with
  | (h, some rest) => (h, '/' :: rest)
  | (h, none) => (h, ['/'])

theorem splitHostPath_append {host t : List Char} (h : '/' ∉ host) :
    splitHostPath (host ++ '/' :: t) = (host, '/' :: t) := by
  simp [splitHostPath, splitFirst_append h]

theorem splitHostPath_fst_not_mem (l : List Char) :
    '/' ∉ (splitHostPath l).1 := by
  have h1 := splitFirst_not_mem_fst l '/'
  unfold splitHostPath
  rcases hsf : splitFirst l '/' with ⟨bef, aft⟩
  rw [hsf] at h1
  cases aft <;> simpa using h1

theorem splitHostPath_fst_sub {l : List Char} {x : Char}
    (h : x ∈ (splitHostPath l).1) : x ∈ l := by
  unfold splitHostPath at h
  rcases hsf : splitFirst l '/' with ⟨bef, aft⟩
  rw [hsf] at h
  have hb : x ∈ bef → x ∈ l := by
    intro hx
    have : x ∈ (splitFirst l '/').1 := by rw [hsf]; exact hx
    exact mem_of_mem_splitFirst_fst this
  cases aft <;> exact hb (by simpa using h)

theorem splitHostPath_snd_shape (l : List Char) :
    ∃ t, (splitHostPath l).2 = '/' :: t := by
  unfold splitHostPath
  rcases hsf : splitFirst l '/' with ⟨bef, aft⟩
  cases aft <;> exact ⟨_, rfl⟩

theorem splitHostPath_snd_sub {l : List Char} {x : Char}
    (hx : x ∈ (splitHostPath l).2) (hne : x ≠ '/') : x ∈ l := by
  unfold splitHostPath at hx
  rcases hsf : splitFirst l '/' with ⟨bef, aft⟩
  rw [hsf] at hx
  cases aft with
  | none => simp at hx; exact absurd hx hne
  | some rest =>
    simp only at hx
    rcases List.mem_cons.mp hx with h | h
    · exact absurd h hne
    · have : (splitFirst l '/').2 = some rest := by rw [hsf]
      exact mem_of_mem_splitFirst_snd this h

/-- Parsed form of a URL in the modelled scope.  `search` and `hash` are
`none` when the `?` / `#` separator is absent; when present they hold the
text after the separator (which is not stored). -/
structure UrlParts where
  scheme : List Char
  host : List Char
  pathname : List Char
  search : Option (List Char)
  hash : Option (List Char)
deriving DecidableEq

/-- Executable model of `new URL(s)` on the modelled scope (see the module
doc): fragment split at the first `#`, query at the first `?`, then a
nonempty all-letter scheme, the literal `://`, a nonempty host (up to the
first `/`, ports kept as part of the host string) and the pathname. -/
def parseUrl (l : List Char) : Option UrlParts :=
  match splitScheme (splitFirst (splitFirst l '#').1 '?').1 with
  | none => none
  | some sr =>
    if sr.1 = [] then none
    else if ¬ sr.1.all Char.isAlpha then none
    else if (splitHostPath sr.2).1 = [] then none
    else some ⟨sr.1, (splitHostPath sr.2).1, (splitHostPath sr.2).2,
      (splitFirst (splitFirst l '#').1 '?').2, (splitFirst l '#').2⟩

/-- Serialization mirroring `URL.prototype.toString` on the modelled scope. -/
def serializeUrl (p : UrlParts) : List Char :=
  p.scheme ++ ':' :: '/' :: '/' ::
    (p.host ++ p.pathname ++
      (match p.search with
       | some q => '?' :: q
       | none => []) ++
      (match p.hash with
       | some h => '#' :: h
       | none => []))

/-- Origin string `scheme://host` with ASCII letter case folded, modelling
the case normalization the platform URL parser applies to scheme and host. -/
def originOf (p : UrlParts) : List Char :=
  (p.scheme.map Char.toLower) ++ ':' :: '/' :: '/' :: (p.host.map Char.toLower)

theorem alpha_ne_colon {c : Char} (h : c.isAlpha = true) : c ≠ ':' := by
  intro he; subst he; exact absurd h (by decide)

theorem alpha_ne_slash {c : Char} (h : c.isAlpha = true) : c ≠ '/' := by
  intro he; subst he; exact absurd h (by decide)

theorem alpha_ne_qmark {c : Char} (h : c.isAlpha = true) : c ≠ '?' := by
  intro he; subst he; exact absurd h (by decide)

theorem alpha_ne_hash {c : Char} (h : c.isAlpha = true) : c ≠ '#' := by
  intro he; subst he; exact absurd h (by decide)

/-- Shape facts guaranteed for every `UrlParts` value the parser produces;
exactly what is needed to show that serialization parses back. -/
structure WF (p : UrlParts) : Prop where
  scheme_ne : p.scheme ≠ []
  scheme_alpha : p.scheme.all Char.isAlpha = true
  host_ne : p.host ≠ []
  host_no_slash : '/' ∉ p.host
  host_no_q : '?' ∉ p.host
  host_no_hash : '#' ∉ p.host
  path_shape : ∃ t, p.pathname = '/' :: t
  path_no_q : '?' ∉ p.pathname
  path_no_hash : '#' ∉ p.pathname
  search_no_hash : ∀ q, p.search = some q → '#' ∉ q

theorem parse_wf {l : List Char} {p : UrlParts} (h : parseUrl l = some p) : WF p := by
  unfold parseUrl at h
  split at h
  · exact absurd h (by simp)
  · rename_i sr hsch
    split at h
    · exact absurd h (by simp)
    · split at h
      · exact absurd h (by simp)
      · split at h
        · exact absurd h (by simp)
        · rename_i hne halpha hhost
          simp only [Option.some.injEq] at h
          subst h
          obtain ⟨hdec, hcolon⟩ := splitScheme_parts hsch
          simp only [not_not] at halpha
          have hq_bq : '?' ∉ (splitFirst (splitFirst l '#').1 '?').1 :=
            splitFirst_not_mem_fst (splitFirst l '#').1 '?'
          have hhash_bh : '#' ∉ (splitFirst l '#').1 :=
            splitFirst_not_mem_fst l '#'
          have hbq_sub : ∀ x, x ∈ (splitFirst (splitFirst l '#').1 '?').1 →
              x ∈ (splitFirst l '#').1 := fun x hx =>
            mem_of_mem_splitFirst_fst hx
          have hrest_sub : ∀ x, x ∈ sr.2 →
              x ∈ (splitFirst (splitFirst l '#').1 '?').1 := by
            intro x hx
            rw [hdec]
            simp [hx]
          refine ⟨hne, halpha, hhost, ?_, ?_, ?_, ?_, ?_, ?_, ?_⟩
          · exact splitHostPath_fst_not_mem sr.2
          · intro hx
            exact hq_bq (hrest_sub _ (splitHostPath_fst_sub hx))
          · intro hx
            exact hhash_bh (hbq_sub _ (hrest_sub _ (splitHostPath_fst_sub hx)))
          · exact splitHostPath_snd_shape sr.2
          · intro hx
            exact hq_bq (hrest_sub _ (splitHostPath_snd_sub hx (by decide)))
          · intro hx
            exact hhash_bh
              (hbq_sub _ (hrest_sub _ (splitHostPath_snd_sub hx (by decide))))
          · intro q hq hx
            exact hhash_bh (mem_of_mem_splitFirst_snd hq hx)

theorem scheme_mem_alpha {p : UrlParts} (hwf : WF p) {x : Char}
    (hx : x ∈ p.scheme) : x.isAlpha = true :=
  (List.all_eq_true.mp hwf.scheme_alpha) x hx

theorem hash_not_mem_serialize {p : UrlParts} (hwf : WF p) (hh : p.hash = none) :
    '#' ∉ serializeUrl p := by
  intro hx
  simp only [serializeUrl, hh, List.append_nil, List.mem_append, List.mem_cons] at hx
  rcases hx with hx | hx
  · exact alpha_ne_hash (scheme_mem_alpha hwf hx) rfl
  · rcases hx with hx | hx
    · exact absurd hx (by decide)
    · rcases hx with hx | hx
      · exact absurd hx (by decide)
      · rcases hx with hx | hx
        · exact absurd hx (by decide)
        · rcases hx with hx | hx
          · rcases hx with hx | hx
            · exact hwf.host_no_hash hx
            · exact hwf.path_no_hash hx
          · rcases hs : p.search with _ | q
            · rw [hs] at hx; simp at hx
            · rw [hs] at hx
              simp only [List.mem_cons] at hx
              rcases hx with hx | hx
              · exact absurd hx (by decide)
              · exact hwf.search_no_hash q hs hx

theorem qmark_not_mem_serialize {p : UrlParts} (hwf : WF p) (hh : p.hash = none)
    (hs : p.search = none) : '?' ∉ serializeUrl p := by
  intro hx
  simp only [serializeUrl, hh, hs, List.append_nil, List.mem_append,
    List.mem_cons] at hx
  rcases hx with hx | hx
  · exact alpha_ne_qmark (scheme_mem_alpha hwf hx) rfl
  · rcases hx with hx | hx
    · exact absurd hx (by decide)
    · rcases hx with hx | hx
      · exact absurd hx (by decide)
      · rcases hx with hx | hx
        · exact absurd hx (by decide)
        · rcases hx with hx | hx
          · exact hwf.host_no_q hx
          · exact hwf.path_no_q hx

theorem colon_not_mem_scheme {p : UrlParts} (hwf : WF p) : ':' ∉ p.scheme := by
  intro hx
  exact alpha_ne_colon (scheme_mem_alpha hwf hx) rfl

/-- Round trip: serializing a well-formed `UrlParts` with no fragment and
parsing it back recovers the same parts.  This is the key fact behind the
idempotence analysis of `normalizeUrl`. -/
theorem parse_serialize {p : UrlParts} (hwf : WF p) (hh : p.hash = none) :
    parseUrl (serializeUrl p) = some p := by
  have h1 : splitFirst (serializeUrl p) '#' = (serializeUrl p, none) :=
    splitFirst_of_not_mem (hash_not_mem_serialize hwf hh)
  have hcolon := colon_not_mem_scheme hwf
  obtain ⟨t, hpath⟩ := hwf.path_shape
  have h4 : splitHostPath (p.host ++ p.pathname) = (p.host, p.pathname) := by
    rw [hpath]
    exact splitHostPath_append hwf.host_no_slash
  have halpha := hwf.scheme_alpha
  have hsne := hwf.scheme_ne
  have hhne := hwf.host_ne
  rcases hs : p.search with _ | q
  · -- no query: the whole string also has no `?`
    have h2 : splitFirst (serializeUrl p) '?' = (serializeUrl p, none) :=
      splitFirst_of_not_mem (qmark_not_mem_serialize hwf hh hs)
    have hser : serializeUrl p =
        p.scheme ++ ':' :: '/' :: '/' :: (p.host ++ p.pathname) := by
      simp [serializeUrl, hh, hs]
    have h3 : splitScheme (serializeUrl p) = some (p.scheme, p.host ++ p.pathname) := by
      rw [hser]
      exact splitScheme_append hcolon
    obtain ⟨sch, host, path, srch, hsh⟩ := p
    simp only at hs hh h1 h2 h3 h4 halpha hsne hhne
    subst hs; subst hh
    unfold parseUrl
    rw [h1]
    simp only
    rw [h2]
    simp only
    rw [h3]
    simp only [h4, halpha, not_true, if_neg hsne, if_neg hhne]
    simp [h1]
  · -- with a query: the first `?` of the string is the query separator
    have hpre : '?' ∉ p.scheme ++ ':' :: '/' :: '/' :: (p.host ++ p.pathname) := by
      intro hx
      simp only [List.mem_append, List.mem_cons] at hx
      rcases hx with hx | hx
      · exact alpha_ne_qmark (scheme_mem_alpha hwf hx) rfl
      · rcases hx with hx | hx
        · exact absurd hx (by decide)
        · rcases hx with hx | hx
          · exact absurd hx (by decide)
          · rcases hx with hx | hx
            · exact absurd hx (by decide)
            · rcases hx with hx | hx
              · exact hwf.host_no_q hx
              · exact hwf.path_no_q hx
    have hser : serializeUrl p =
        (p.scheme ++ ':' :: '/' :: '/' :: (p.host ++ p.pathname)) ++ '?' :: q := by
      simp [serializeUrl, hh, hs, List.append_assoc]
    have h2 : splitFirst (serializeUrl p) '?' =
        (p.scheme ++ ':' :: '/' :: '/' :: (p.host ++ p.pathname), some q) := by
      rw [hser]
      exact splitFirst_append hpre
    have h3 : splitScheme (p.scheme ++ ':' :: '/' :: '/' :: (p.host ++ p.pathname)) =
        some (p.scheme, p.host ++ p.pathname) :=
      splitScheme_append hcolon
    obtain ⟨sch, host, path, srch, hsh⟩ := p
    simp only at hs hh h1 h2 h3 h4 halpha hsne hhne
    subst hs; subst hh
    unfold parseUrl
    rw [h1]
    simp only
    rw [h2]
    simp only
    rw [h3]
    simp only [h4, halpha, not_true, if_neg hsne, if_neg hhne]
    simp [h1]

end UrlModel

namespace Crawler

open UrlModel

/-- Char-list rendering of `String.prototype.startsWith`-style matching:
`isPre pat l` is true iff `pat` is an initial segment of `l`. -/
def isPre : List Char → List Char → Bool
  | [], _ => true
  | _ :: _, [] => false
  | p :: ps, c :: cs => p == c && isPre ps cs

/-- Models `url.startsWith(pat)`. -/
def startsWithL (pat l : List Char) : Bool := isPre pat l

/-- Models `url.endsWith(pat)`. -/
def endsWithL (pat l : List Char) : Bool := isPre pat.reverse l.reverse

/-- Strips one trailing `/` from a non-root pathname, the way
`normalizeUrl` in `crawler.ts` does with `endsWith('/')` / `slice(0, -1)`
(`endsWith`/`slice` are rendered through list reversal). -/
def stripTrailingSlash (path : List Char) : List Char :=
  if path = ['/'] then path
  else
    match path.reverse with
    | '/' :: r => r.reverse
    | _ => path

/-- Models `normalizeUrl(url, removeQuery)` from `crawler.ts`: parse, clear
the fragment, clear the query iff `removeQuery`, strip one trailing slash
from a non-root pathname, serialize; unparsable input is returned
unchanged. -/
def normalizeUrl (l : List Char) (removeQuery : Bool) : List Char :=
  match parseUrl l with
  | none => l
  | some p =>
    serializeUrl
      { scheme := p.scheme
        host := p.host
        pathname := stripTrailingSlash p.pathname
        search := if removeQuery then none else p.search
        hash := none }

/-- Models `isInternalUrl` from `crawler.ts`: both URLs parse and their
origins agree (origin comparison folds ASCII case, as the platform's
origin getter does). -/
def isInternalUrl (url base : List Char) : Bool :=
  match parseUrl url, parseUrl base with
  | some a, some b => originOf a == originOf b
  | _, _ => false

/-- Anchored, case-insensitive glob match: `*` matches any run of
characters and `?` any single character; every other character matches
itself up to ASCII case.  Models `globToRegex` from `crawler.ts`
(`^escaped$` with the `i` flag; the newline-exclusion of the regex `.` is
not modelled). -/
def globMatch : List Char → List Char → Bool
  | [], s => s.isEmpty
  | '*' :: ps, s => (allSuffixes s).any (fun t => globMatch ps t)
  | '?' :: ps, s =>
    match s with
    | [] => false
    | _ :: ss => globMatch ps ss
  | p :: ps, s =>
    match s with
    | [] => false
    | c :: ss => p.toLower == c.toLower && globMatch ps ss
where
  /-- All suffixes of a char list, longest first. -/
  allSuffixes : List Char → List (List Char)
    | [] => [[]]
    | c :: cs => (c :: cs) :: allSuffixes cs

/-- Models `matchesPattern` from `crawler.ts`: some glob matches. -/
def matchesPattern (s : List Char) (patterns : List (List Char)) : Bool :=
  patterns.any (fun pat => globMatch pat s)

/-- The fixed resource-extension denylist of `shouldCrawl` in `crawler.ts`. -/
def resourceExtensions : List (List Char) :=
  [".png".data, ".jpg".data, ".jpeg".data, ".gif".data, ".svg".data,
   ".webp".data, ".ico".data, ".css".data, ".js".data, ".json".data,
   ".xml".data, ".txt".data, ".pdf".data, ".woff".data, ".woff2".data,
   ".ttf".data, ".eot".data, ".otf".data, ".mp3".data, ".mp4".data,
   ".webm".data, ".ogg".data, ".wav".data, ".zip".data, ".tar".data,
   ".gz".data, ".rar".data]

/-- Filter context of `shouldCrawl` (the source's optional arrays are
modelled as lists, `undefined` as `[]`; `include` is a Lean keyword, hence
the field name `includes`). -/
structure CrawlOptions where
  baseUrl : List Char
  exclude : List (List Char)
  includes : List (List Char)

/-- Models `shouldCrawl(url, options)` from `crawler.ts`, in source order:
literal `http://`/`https://` prefix test, internality, resource-extension
denylist on the lowercased pathname, exclude globs, include globs.  (The
`parseUrl url = none` branch is unreachable past the internality check; the
source would throw there.) -/
def shouldCrawl (url : List Char) (opts : CrawlOptions) : Bool :=
  if startsWithL "http://".data url || startsWithL "https://".data url then
    if isInternalUrl url opts.baseUrl then
      match parseUrl url with
      | none => false
      | some p =>
        if resourceExtensions.any (fun e => endsWithL e (p.pathname.map Char.toLower))
        then false
        else if !opts.exclude.isEmpty && matchesPattern p.pathname opts.exclude
        then false
        else if !opts.includes.isEmpty && !matchesPattern p.pathname opts.includes
        then false
        else true
    else false
  else false

/-- Modelled from the claim wording, not the source: `shouldCrawl` as claim
C8 states it, with "the scheme is not http or https" read as a property of
the parsed (case-insensitive) scheme.  Used to test the claim as a
refinement statement against `shouldCrawl`. -/
def shouldCrawlSpec (url : List Char) (opts : CrawlOptions) : Bool :=
  match parseUrl url with
  | none => false
  | some p =>
    if p.scheme.map Char.toLower == "http".data ||
        p.scheme.map Char.toLower == "https".data then
      if isInternalUrl url opts.baseUrl then
        if resourceExtensions.any (fun e => endsWithL e (p.pathname.map Char.toLower))
        then false
        else if matchesPattern p.pathname opts.exclude then false
        else if !opts.includes.isEmpty && !matchesPattern p.pathname opts.includes
        then false
        else true
      else false
    else false

/-- Modelled from the amended claim wording: as `shouldCrawlSpec`, but the
scheme condition is the literal lowercase `http://`/`https://` prefix test
the source performs (so an uppercase-scheme spelling is rejected). -/
def shouldCrawlSpecAmended (url : List Char) (opts : CrawlOptions) : Bool :=
  if startsWithL "http://".data url || startsWithL "https://".data url then
    if isInternalUrl url opts.baseUrl then
      if pathExtensionDenied url then false
      else if pathMatchesGlobs url opts.exclude then false
      else if !opts.includes.isEmpty && !pathMatchesGlobs url opts.includes then false
      else true
    else false
  else false
where
  /-- The lowercased pathname of `url` ends in a denylisted extension. -/
  pathExtensionDenied (url : List Char) : Bool :=
    match parseUrl url with
    | none => false
    | some p =>
      resourceExtensions.any (fun e => endsWithL e (p.pathname.map Char.toLower))
  /-- The pathname of `url` matches one of the globs. -/
  pathMatchesGlobs (url : List Char) (pats : List (List Char)) : Bool :=
    match parseUrl url with
    | none => false
    | some p => matchesPattern p.pathname pats

end Crawler

namespace Crawler

open UrlModel

theorem stripTrailingSlash_cases (l : List Char) :
    stripTrailingSlash l = l ∨
    ∃ r, l.reverse = '/' :: r ∧ l ≠ ['/'] ∧
      stripTrailingSlash l = r.reverse ∧ l = r.reverse ++ ['/'] := by
  unfold stripTrailingSlash
  by_cases hroot : l = ['/']
  · left; simp [hroot]
  · rw [if_neg hroot]
    split
    · rename_i r heq
      right
      refine ⟨r, heq, hroot, rfl, ?_⟩
      conv_lhs => rw [← List.reverse_reverse l, heq]
      simp
    · left; rfl

theorem stripTrailingSlash_sub {l : List Char} {x : Char}
    (h : x ∈ stripTrailingSlash l) : x ∈ l := by
  rcases stripTrailingSlash_cases l with hc | ⟨r, hrev, hne, hval, hdec⟩
  · rwa [hc] at h
  · rw [hval] at h
    rw [hdec]
    exact List.mem_append_left _ h

theorem stripTrailingSlash_shape {l : List Char} (h : ∃ t, l = '/' :: t) :
    ∃ t', stripTrailingSlash l = '/' :: t' := by
  obtain ⟨t, ht⟩ := h
  rcases stripTrailingSlash_cases l with hc | ⟨r, hrev, hne, hval, hdec⟩
  · exact ⟨t, by rw [hc, ht]⟩
  · rcases hrr : r.reverse with _ | ⟨x, u⟩
    · exfalso
      rw [hrr] at hdec
      exact hne (by simpa using hdec)
    · rw [hrr] at hdec
      rw [ht] at hdec
      have hx : x = '/' := by
        have := congrArg (fun s => s.head?) hdec
        simpa using this.symm
      exact ⟨u, by rw [hval, hrr, hx]⟩

/-- The pathname ends in two slashes: the one configuration on which
stripping a single trailing slash is not idempotent. -/
def hasDoubleSlashEnd (l : List Char) : Bool :=
  match l.reverse with
  | '/' :: '/' :: _ => true
  | _ => false

theorem stripTrailingSlash_idem {l : List Char}
    (h : hasDoubleSlashEnd l = false) :
    stripTrailingSlash (stripTrailingSlash l) = stripTrailingSlash l := by
  rcases stripTrailingSlash_cases l with hc | ⟨r, hrev, hne, hval, hdec⟩
  · rw [hc, hc]
  · rw [hval]
    rcases hr : r with _ | ⟨d, r2⟩
    · exfalso
      rw [hr] at hdec
      exact hne (by simpa using hdec)
    · have hd : d ≠ '/' := by
        intro hdd
        unfold hasDoubleSlashEnd at h
        rw [hrev, hr, hdd] at h
        simp at h
      rcases stripTrailingSlash_cases r.reverse with hc2 | ⟨r', hrev2, _, _, _⟩
      · rw [← hr, hc2]
      · exfalso
        rw [List.reverse_reverse, hr] at hrev2
        exact hd (by injection hrev2)

theorem normalizedParts_wf {l : List Char} {p : UrlParts} (q : Bool)
    (hp : parseUrl l = some p) :
    WF ⟨p.scheme, p.host, stripTrailingSlash p.pathname,
        if q then none else p.search, none⟩ := by
  have hwf := parse_wf hp
  refine ⟨hwf.scheme_ne, hwf.scheme_alpha, hwf.host_ne, hwf.host_no_slash,
    hwf.host_no_q, hwf.host_no_hash, ?_, ?_, ?_, ?_⟩
  · exact stripTrailingSlash_shape hwf.path_shape
  · exact fun hx => hwf.path_no_q (stripTrailingSlash_sub hx)
  · exact fun hx => hwf.path_no_hash (stripTrailingSlash_sub hx)
  · intro qq hqq hx
    rcases hq : q with _ | _ <;> rw [hq] at hqq
    · simp only [if_neg Bool.false_ne_true] at hqq
      exact hwf.search_no_hash qq hqq hx
    · simp at hqq

theorem normalizeUrl_eq_serialize {l : List Char} {p : UrlParts} (q : Bool)
    (hp : parseUrl l = some p) :
    normalizeUrl l q =
      serializeUrl ⟨p.scheme, p.host, stripTrailingSlash p.pathname,
        if q then none else p.search, none⟩ := by
  unfold normalizeUrl
  rw [hp]

theorem normalizeUrl_parse {l : List Char} {p : UrlParts} (q : Bool)
    (hp : parseUrl l = some p) :
    parseUrl (normalizeUrl l q) =
      some ⟨p.scheme, p.host, stripTrailingSlash p.pathname,
        if q then none else p.search, none⟩ := by
  rw [normalizeUrl_eq_serialize q hp]
  exact parse_serialize (normalizedParts_wf q hp) rfl

end Crawler

namespace Crawler

open UrlModel

theorem isInternalUrl_parse {u b : List Char} (h : isInternalUrl u b = true) :
    ∃ p, parseUrl u = some p := by
  unfold isInternalUrl at h
  rcases hu : parseUrl u with _ | p
  · rw [hu] at h
    rcases parseUrl b with _ | pb <;> simp at h
  · exact ⟨p, rfl⟩

end Crawler

/-- C7: for every input string and removeQuery flag, `normalizeUrl` returns
unparsable input unchanged without throwing, and on parsable input produces
a URL whose fragment is cleared, whose query is cleared iff `removeQuery`
is set (in particular the output contains no `?` when `removeQuery=true`),
and whose pathname has one trailing slash stripped unless it is the root
path (the `?`-freeness conjunct is scoped to parsable inputs: an unparsable
input is returned verbatim and may contain anything). -/
theorem C7_normalizeUrl_contract (l : List Char) (q : Bool) :
    (UrlModel.parseUrl l = none → Crawler.normalizeUrl l q = l) ∧
    (∀ p, UrlModel.parseUrl l = some p →
      UrlModel.parseUrl (Crawler.normalizeUrl l q) =
        some ⟨p.scheme, p.host, Crawler.stripTrailingSlash p.pathname,
          if q then none else p.search, none⟩ ∧
      (q = true → '?' ∉ Crawler.normalizeUrl l q)) := by
  constructor
  · intro hn
    unfold Crawler.normalizeUrl
    rw [hn]
  · intro p hp
    refine ⟨Crawler.normalizeUrl_parse q hp, ?_⟩
    intro hq
    subst hq
    rw [Crawler.normalizeUrl_eq_serialize true hp]
    exact UrlModel.qmark_not_mem_serialize
      (Crawler.normalizedParts_wf true hp) rfl (by simp)

/-- C7 witness: concrete instance `normalizeUrl("http://ex.test/a/?x#y", removeQuery := true)`:
the output parses to scheme `http`, host `ex.test`, pathname `/a` (one
trailing slash stripped), no query and no fragment, and contains no `?`. -/
theorem C7_witness :
    UrlModel.parseUrl
        (Crawler.normalizeUrl "http://ex.test/a/?x#y".data true) =
      some ⟨"http".data, "ex.test".data, "/a".data, none, none⟩ ∧
    '?' ∉ Crawler.normalizeUrl "http://ex.test/a/?x#y".data true := by
  have h := (C7_normalizeUrl_contract "http://ex.test/a/?x#y".data true).2
    ⟨"http".data, "ex.test".data, "/a/".data, some "x".data, some "y".data⟩
    (by decide)
  exact ⟨h.1.trans (by decide), h.2 rfl⟩

/-- C8 counterexample: the claim reads the scheme condition semantically
("the scheme is not http or https"), but the source tests the literal
lowercase prefix `url.startsWith('http://')`: the spelling
`HTTP://site.test/` has scheme `http` and the base's origin, matches no
denylist/exclude/include condition, so the claim says it is crawlable, yet
`shouldCrawl` rejects it. -/
theorem C8_counterexample :
    Crawler.shouldCrawl "HTTP://site.test/".data
        ⟨"http://site.test/".data, [], []⟩ = false ∧
    Crawler.shouldCrawlSpec "HTTP://site.test/".data
        ⟨"http://site.test/".data, [], []⟩ = true := by
  exact ⟨by decide, by decide⟩

/-- C8 amended: `shouldCrawl` computes exactly the claimed cascade with the
scheme condition amended to the literal `http://`/`https://` prefix test:
reject non-prefixed (e.g. uppercase-scheme) URLs, then non-internal URLs,
then paths ending in a denylisted resource extension (regardless of
exclude/include), then paths matching an exclude glob, then, when include
globs are configured, paths matching none of them; otherwise crawl. -/
theorem C8_shouldCrawl_amended (url : List Char) (opts : Crawler.CrawlOptions) :
    Crawler.shouldCrawl url opts = Crawler.shouldCrawlSpecAmended url opts := by
  unfold Crawler.shouldCrawl Crawler.shouldCrawlSpecAmended
  by_cases hpre : (Crawler.startsWithL "http://".data url ||
      Crawler.startsWithL "https://".data url) = true
  · rw [if_pos hpre, if_pos hpre]
    by_cases hint : Crawler.isInternalUrl url opts.baseUrl = true
    · obtain ⟨p, hp⟩ := Crawler.isInternalUrl_parse hint
      rw [if_pos hint, if_pos hint]
      unfold Crawler.shouldCrawlSpecAmended.pathExtensionDenied
        Crawler.shouldCrawlSpecAmended.pathMatchesGlobs
      rw [hp]
      dsimp only
      by_cases hden : (Crawler.resourceExtensions.any
          (fun e => Crawler.endsWithL e (p.pathname.map Char.toLower))) = true
      · rw [if_pos hden, if_pos hden]
      · rw [if_neg hden, if_neg hden]
        rcases hex : opts.exclude with _ | ⟨e1, es⟩
        · simp [Crawler.matchesPattern]
        · simp only [List.isEmpty_cons, Bool.not_false, Bool.true_and]
    · rw [if_neg hint, if_neg hint]
  · rw [if_neg hpre, if_neg hpre]

/-- C10 counterexample: `normalizeUrl` strips only one trailing slash, so it
is not idempotent: `http://x///` normalizes to `http://x//`, which
normalizes further to `http://x/`. -/
theorem C10_counterexample :
    Crawler.normalizeUrl
        (Crawler.normalizeUrl "http://x///".data false) false ≠
      Crawler.normalizeUrl "http://x///".data false := by
  decide

/-- C10 amended: `normalizeUrl` is idempotent on every input that is
unparsable, and on every parsable input whose pathname does not end in two
slashes (the only shape on which single-slash stripping can strip again). -/
theorem C10_normalizeUrl_idem (l : List Char) (q : Bool) :
    (UrlModel.parseUrl l = none →
      Crawler.normalizeUrl (Crawler.normalizeUrl l q) q =
        Crawler.normalizeUrl l q) ∧
    (∀ p, UrlModel.parseUrl l = some p →
      Crawler.hasDoubleSlashEnd p.pathname = false →
      Crawler.normalizeUrl (Crawler.normalizeUrl l q) q =
        Crawler.normalizeUrl l q) := by
  constructor
  · intro hn
    have h1 : Crawler.normalizeUrl l q = l := by
      unfold Crawler.normalizeUrl
      rw [hn]
    rw [h1, h1]
  · intro p hp hds
    have h1 := Crawler.normalizeUrl_parse q hp
    have h2 := Crawler.normalizeUrl_eq_serialize q h1
    rw [h2]
    rw [Crawler.normalizeUrl_eq_serialize q hp]
    simp only
    rw [Crawler.stripTrailingSlash_idem hds]
    rcases hq : q with _ | _
    · rfl
    · rfl

/-- C10 witness: a concrete parsable URL with a single trailing slash,
where double application of `normalizeUrl` agrees with single application. -/
theorem C10_witness :
    Crawler.normalizeUrl
        (Crawler.normalizeUrl "http://w.test/b/".data false) false =
      Crawler.normalizeUrl "http://w.test/b/".data false := by
  exact (C10_normalizeUrl_idem "http://w.test/b/".data false).2
    ⟨"http".data, "w.test".data, "/b/".data, none, none⟩ (by decide) (by decide)

namespace Pupp

open UrlModel

/-- Removes the whole trailing run of `/` characters, modelling the
`replace(/\/+$/, '')` step of the Puppeteer explorer's `normalizeUrl`. -/
def dropTrailingSlashes (l : List Char) : List Char :=
  (l.reverse.dropWhile (fun c => c == '/')).reverse

/-- Models `normalizeUrl` from `puppeteer-explorer.ts`: `origin + pathname`
with every trailing slash removed, then the query re-appended when
non-empty; unparsable input is returned unchanged.  (Note this function
differs from `Crawler.normalizeUrl`: it always keeps the query, drops the
fragment via the origin/pathname rebuild, and strips the root slash too.) -/
def normalizeUrl (l : List Char) : List Char :=
  match parseUrl l with
  | none => l
  | some p =>
    let base := dropTrailingSlashes (originOf p ++ p.pathname)
    let norm :=
      match p.search with
      | some q => if !q.isEmpty then base ++ '?' :: q else base
      | none => base
    if norm.isEmpty then l else norm

/-- Removes one leading and one trailing slash, modelling the
`replace(/^\/|\/$/g, '')` step of `getPathName`. -/
def trimSlashOnce (l : List Char) : List Char :=
  let l1 :=
    match l with
    | '/' :: t => t
    | _ => l
  match l1.reverse with
  | '/' :: r => r.reverse
  | _ => l1

/-- Models `getPathName` from `puppeteer-explorer.ts`. -/
def getPathName (l : List Char) : List Char :=
  match parseUrl l with
  | none => "unknown".data
  | some p =>
    let path := trimSlashOnce p.pathname
    let path := if path.isEmpty then "home".data else path
    path.map (fun c => if c = '/' then '-' else c)

/-- The resource-extension denylist of the Puppeteer explorer's
`shouldCrawl` (note: without the leading dot, unlike the crawler.ts list). -/
def skipExtensions : List (List Char) :=
  ["pdf".data, "jpg".data, "jpeg".data, "png".data, "gif".data, "svg".data,
   "css".data, "js".data, "ico".data, "woff".data, "woff2".data, "ttf".data]

/-- The segment after the last `.` of `l`, or all of `l` when it has no
`.`: models `pathname.split('.').pop()`. -/
def afterLastDot (l : List Char) : List Char :=
  (l.reverse.takeWhile (fun c => c != '.')).reverse

/-- Substring containment, modelling `url.includes(pattern)`. -/
def containsSub (pat : List Char) : List Char → Bool
  | [] => pat.isEmpty
  | c :: cs => Crawler.isPre pat (c :: cs) || containsSub pat cs

/-- Models `shouldCrawl(url, baseUrl, exclude)` from
`puppeteer-explorer.ts`: same origin, http(s) protocol, extension not in
the denylist, and no exclude pattern occurring as a plain substring of the
whole URL (this engine does substring exclusion, not glob exclusion). -/
def shouldCrawl (url baseUrl : List Char) (exclude : List (List Char)) : Bool :=
  match parseUrl url, parseUrl baseUrl with
  | some p, some b =>
    if originOf p == originOf b then
      if p.scheme.map Char.toLower == "http".data ||
          p.scheme.map Char.toLower == "https".data then
        if !((afterLastDot p.pathname).map Char.toLower).isEmpty &&
            skipExtensions.contains ((afterLastDot p.pathname).map Char.toLower)
        then false
        else if exclude.any (fun pat => containsSub pat url) then false
        else true
      else false
    else false
  | _, _ => false

/-- Models `new URL(href, baseUrl).toString()` for the href forms the
modelled worlds use: an absolute href resolves to itself, a root-relative
href (leading `/`) resolves against the base origin; other relative forms
are outside the modelled scope and are treated as unresolvable (the
source's catch-and-skip path). -/
def resolveUrl (href base : List Char) : Option (List Char) :=
  match parseUrl href with
  | some _ => some href
  | none =>
    match parseUrl base with
    | some b =>
      match href with
      | '/' :: _ => some (originOf b ++ href)
      | _ => none
    | none => none

/-- First-occurrence deduplication, modelling `[...new Set(list)]`. -/
def dedupAux (seen : List (List Char)) : List (List Char) → List (List Char)
  | [] => []
  | x :: xs =>
    if seen.contains x then dedupAux seen xs
    else x :: dedupAux (x :: seen) xs

def dedup (l : List (List Char)) : List (List Char) := dedupAux [] l

/-- Models `extractLinks(page, baseUrl, exclude)` from
`puppeteer-explorer.ts`: the page's raw hrefs are resolved against the
base URL, filtered through `shouldCrawl`, normalized, and deduplicated
preserving first occurrence. -/
def extractLinks (hrefs : List (List Char)) (baseUrl : List Char)
    (exclude : List (List Char)) : List (List Char) :=
  dedup (hrefs.filterMap (fun h =>
    match resolveUrl h baseUrl with
    | none => none
    | some full =>
      if shouldCrawl full baseUrl exclude then some (normalizeUrl full)
      else none))

structure Viewport where
  width : Nat
  height : Nat
deriving DecidableEq

/-- Models `generateFilename(path, viewport)`; the date-stamp suffix of
the source (`new Date().toISOString()`) is wall-clock dependent and is
omitted from the model. -/
def generateFilename (path : List Char) (v : Viewport) : List Char :=
  path ++ '_' :: (Nat.repr v.width).data ++ 'x' :: (Nat.repr v.height).data
    ++ ".png".data

/-- The browser-visible behaviour of one URL: either navigation fails with
a message, or the page loads with a login-detection outcome, the raw hrefs
visible before authentication, the raw hrefs visible after a successful
login on this page, and the outcome `performLogin` would report here.
Everything the engine observes through the browser driver is collected in
this environment record. -/
structure PageData where
  isLoginPage : Bool
  hrefsPre : List (List Char)
  hrefsPost : List (List Char)
  loginSucceeds : Bool
deriving DecidableEq

inductive NavOutcome where
  | fail (msg : List Char)
  | ok (pg : PageData)
deriving DecidableEq

/-- The run environment: what navigation to each URL yields, and the
answers the interactive terminal prompt would produce, indexed by how many
prompt interactions have already happened in this run. -/
structure World where
  nav : List Char → NavOutcome
  promptUsername : Nat → List Char
  promptPassword : Nat → List Char

/-- Resolved options of a run (the source's `options.x ?? config.explorer.x`
fallbacks are resolved upstream of the model). -/
structure ExplorerOptions where
  startUrl : List Char
  maxDepth : Nat
  maxPages : Nat
  exclude : List (List Char)
  credentials : Option (List Char × List Char)
  viewports : List Viewport

structure ExplorerResult where
  url : List Char
  path : List Char
  depth : Nat
  screenshots : List (List Char)
  error : Option (List Char)
  isLoginPage : Bool
deriving DecidableEq

/-- The mutable instance fields of `PuppeteerExplorerEngine`, plus
`promptEvents`, a history counter of interactive credential prompts (not a
source field; it instruments how often the prompt fires). -/
structure EngState where
  visited : List (List Char)
  queue : List (List Char × Nat)
  results : List ExplorerResult
  authenticated : Bool
  credentials : Option (List Char × List Char)
  loginPageUrls : List (List Char)
  promptEvents : Nat
deriving DecidableEq

/-- Models the link-enqueueing loops: each link not in the visited set is
pushed onto the frontier at the given depth (note the source checks only
`visited`, not the queue). -/
def enqueueLinks (links : List (List Char)) (d : Nat) (s : EngState) : EngState :=
  links.foldl
    (fun st l =>
      if st.visited.contains l then st
      else { st with queue := st.queue ++ [(l, d)] })
    s

/-- Models a `performLogin` attempt with stored credentials plus the
post-login re-extraction: on success the engine becomes authenticated and
enqueues the links re-extracted from the now-authenticated page at
`depth + 1` (the source performs no depth check here). -/
def attemptLogin (o : ExplorerOptions) (pg : PageData) (depth : Nat)
    (s : EngState) : EngState :=
  if pg.loginSucceeds then
    enqueueLinks (extractLinks pg.hrefsPost o.startUrl o.exclude) (depth + 1)
      { s with authenticated := true }
  else s

/-- Models the interactive credential prompt: one prompt interaction is
recorded; an empty username skips (the state is otherwise unchanged), an
empty password likewise; otherwise the credentials are stored and a login
attempt follows. -/
def promptFlow (env : World) (o : ExplorerOptions) (pg : PageData)
    (depth : Nat) (s : EngState) : EngState :=
  let s1 := { s with promptEvents := s.promptEvents + 1 }
  let username := env.promptUsername s.promptEvents
  if username.isEmpty then s1
  else
    let password := env.promptPassword s.promptEvents
    if password.isEmpty then s1
    else attemptLogin o pg depth { s1 with credentials := some (username, password) }

/-- Models the authentication section of `captureUrl`: runs only on a
detected login page while not yet authenticated; with stored credentials
it attempts a login silently, otherwise it prompts. -/
def authStage (env : World) (o : ExplorerOptions) (pg : PageData)
    (depth : Nat) (s : EngState) : EngState :=
  if pg.isLoginPage && !s.authenticated then
    match s.credentials with
    | some _ => attemptLogin o pg depth s
    | none => promptFlow env o pg depth s
  else s

/-- Models the pre-authentication link extraction of `captureUrl`: links
are enqueued at `depth + 1` only when `depth < maxDepth`. -/
def preLinkStage (o : ExplorerOptions) (pg : PageData) (depth : Nat)
    (s : EngState) : EngState :=
  if depth < o.maxDepth then
    enqueueLinks (extractLinks pg.hrefsPre o.startUrl o.exclude) (depth + 1) s
  else s

/-- Models `captureUrl(url, depth)` from `puppeteer-explorer.ts`.  A failed
navigation yields a result with the error message, no screenshots, and no
state change (the whole body after `goto` is skipped).  On success the
login-page set is updated, the screenshots are taken (the screenshot write
is modelled as succeeding; its filesystem failure mode is outside the
model), pre-auth links are extracted and enqueued under the depth gate,
and the authentication stage runs. -/
def captureUrl (env : World) (o : ExplorerOptions) (s : EngState)
    (url : List Char) (depth : Nat) : EngState × ExplorerResult :=
  match env.nav url with
  | .fail msg => (s, ⟨url, getPathName url, depth, [], some msg, false⟩)
  | .ok pg =>
    let s1 :=
      if pg.isLoginPage then { s with loginPageUrls := s.loginPageUrls ++ [url] }
      else s
    let shots := o.viewports.map
      (fun v => generateFilename ("explore-".data ++ getPathName url) v)
    let s2 := preLinkStage o pg depth s1
    let s3 := authStage env o pg depth s2
    (s3, ⟨url, getPathName url, depth, shots, none, pg.isLoginPage⟩)

/-- One iteration of the `explore` while-loop: `none` means the loop
exits (empty frontier or page budget reached); otherwise the next state:
an already-visited head is dropped, any other head is marked visited,
captured, and its result appended. -/
def loopBody (env : World) (o : ExplorerOptions) (s : EngState) :
    Option EngState :=
  match s.queue with
  | [] => none
  | (url, depth) :: rest =>
    if s.results.length < o.maxPages then
      if s.visited.contains (normalizeUrl url) then some { s with queue := rest }
      else
        let s1 := { s with queue := rest, visited := normalizeUrl url :: s.visited }
        let pr := captureUrl env o s1 url depth
        some { pr.1 with results := pr.1.results ++ [pr.2] }
    else none

/-- The `explore` while-loop with explicit fuel; `none` means the fuel ran
out before the loop exited.  (The source loop always terminates: every
iteration consumes one queue entry, and entries are only added by the at
most `maxPages` capturing iterations; the fuel parameter only makes the
recursion structural.)  All run-level claims quantify over completed runs,
i.e. over every fuel value for which this returns `some`. -/
def loopFuel (env : World) (o : ExplorerOptions) : Nat → EngState → Option EngState
  | 0, _ => none
  | fuel + 1, s =>
    match loopBody env o s with
    | none => some s
    | some s2 => loopFuel env o fuel s2

/-- The state `explore` starts its loop from: empty visited set, the
normalized seed at depth 0, the caller-supplied credentials. -/
def initState (o : ExplorerOptions) : EngState :=
  ⟨[], [(normalizeUrl o.startUrl, 0)], [], false, o.credentials, [], 0⟩

structure ExplorerReport where
  startUrl : List Char
  discovered : Nat
  captured : Nat
  screenshots : Nat
  failed : Nat
  results : List ExplorerResult
  authenticated : Bool
deriving DecidableEq

/-- The report assembled at the end of `explore` (`duration` is wall-clock
and omitted): note `discovered` is the size of the visited set. -/
def reportOf (o : ExplorerOptions) (s : EngState) : ExplorerReport :=
  { startUrl := o.startUrl
    discovered := s.visited.length
    captured := (s.results.filter (fun r => !r.screenshots.isEmpty)).length
    screenshots := (s.results.map (fun r => r.screenshots.length)).sum
    failed := (s.results.filter (fun r => r.error.isSome)).length
    results := s.results
    authenticated := s.authenticated }

/-- Models a whole `explore` run: loop from the initial state, then build
the report. -/
def explore (env : World) (o : ExplorerOptions) (fuel : Nat) :
    Option ExplorerReport :=
  (loopFuel env o fuel (initState o)).map (reportOf o)

end Pupp

namespace Pupp

theorem enqueueLinks_cons (l : List Char) (ls : List (List Char)) (d : Nat)
    (s : EngState) :
    enqueueLinks (l :: ls) d s =
      enqueueLinks ls d
        (if s.visited.contains l then s
         else { s with queue := s.queue ++ [(l, d)] }) := rfl

theorem enqueueLinks_fields (links : List (List Char)) (d : Nat) (s : EngState) :
    (enqueueLinks links d s).visited = s.visited ∧
    (enqueueLinks links d s).results = s.results ∧
    (enqueueLinks links d s).authenticated = s.authenticated ∧
    (enqueueLinks links d s).credentials = s.credentials ∧
    (enqueueLinks links d s).promptEvents = s.promptEvents := by
  induction links generalizing s with
  | nil => exact ⟨rfl, rfl, rfl, rfl, rfl⟩
  | cons l ls ih =>
    rw [enqueueLinks_cons]
    by_cases h : s.visited.contains l = true
    · rw [if_pos h]; exact ih s
    · rw [if_neg h]; exact ih _

theorem enqueueLinks_queue_mem (links : List (List Char)) (d : Nat) (s : EngState) :
    ∀ e ∈ (enqueueLinks links d s).queue,
      e ∈ s.queue ∨ (e.2 = d ∧ e.1 ∉ s.visited) := by
  induction links generalizing s with
  | nil => exact fun e he => Or.inl he
  | cons l ls ih =>
    intro e he
    rw [enqueueLinks_cons] at he
    by_cases h : s.visited.contains l = true
    · rw [if_pos h] at he
      exact ih s e he
    · rw [if_neg h] at he
      rcases ih _ e he with h1 | h2
    -- `h1` lives in the state with the extended queue, `h2` keeps the shape
      · rcases List.mem_append.mp h1 with ha | hb
        · exact Or.inl ha
        · right
          have : e = (l, d) := by simpa using hb
          subst this
          exact ⟨rfl, fun hm => h (List.elem_iff.mpr hm)⟩
      · exact Or.inr h2

theorem attemptLogin_fields (o : ExplorerOptions) (pg : PageData) (depth : Nat)
    (s : EngState) :
    (attemptLogin o pg depth s).visited = s.visited ∧
    (attemptLogin o pg depth s).results = s.results ∧
    (attemptLogin o pg depth s).credentials = s.credentials ∧
    (attemptLogin o pg depth s).promptEvents = s.promptEvents := by
  unfold attemptLogin
  by_cases h : pg.loginSucceeds = true
  · rw [if_pos h]
    obtain ⟨h1, h2, _, h4, h5⟩ := enqueueLinks_fields
      (extractLinks pg.hrefsPost o.startUrl o.exclude) (depth + 1)
      { s with authenticated := true }
    exact ⟨h1, h2, h4, h5⟩
  · rw [if_neg h]; exact ⟨rfl, rfl, rfl, rfl⟩

theorem attemptLogin_queue_mem (o : ExplorerOptions) (pg : PageData)
    (depth : Nat) (s : EngState) :
    ∀ e ∈ (attemptLogin o pg depth s).queue,
      e ∈ s.queue ∨ (e.2 = depth + 1 ∧ e.1 ∉ s.visited) := by
  unfold attemptLogin
  by_cases h : pg.loginSucceeds = true
  · rw [if_pos h]
    exact enqueueLinks_queue_mem _ _ _
  · rw [if_neg h]
    exact fun e he => Or.inl he

theorem promptFlow_fields (env : World) (o : ExplorerOptions) (pg : PageData)
    (depth : Nat) (s : EngState) :
    (promptFlow env o pg depth s).visited = s.visited ∧
    (promptFlow env o pg depth s).results = s.results := by
  unfold promptFlow
  by_cases h1 : (env.promptUsername s.promptEvents).isEmpty = true
  · rw [if_pos h1]; exact ⟨rfl, rfl⟩
  · rw [if_neg h1]
    by_cases h2 : (env.promptPassword s.promptEvents).isEmpty = true
    · rw [if_pos h2]; exact ⟨rfl, rfl⟩
    · rw [if_neg h2]
      obtain ⟨ha, hb, _, _⟩ := attemptLogin_fields o pg depth _
      exact ⟨ha, hb⟩

theorem promptFlow_queue_mem (env : World) (o : ExplorerOptions) (pg : PageData)
    (depth : Nat) (s : EngState) :
    ∀ e ∈ (promptFlow env o pg depth s).queue,
      e ∈ s.queue ∨ (e.2 = depth + 1 ∧ e.1 ∉ s.visited) := by
  unfold promptFlow
  by_cases h1 : (env.promptUsername s.promptEvents).isEmpty = true
  · rw [if_pos h1]; exact fun e he => Or.inl he
  · rw [if_neg h1]
    by_cases h2 : (env.promptPassword s.promptEvents).isEmpty = true
    · rw [if_pos h2]; exact fun e he => Or.inl he
    · rw [if_neg h2]
      exact attemptLogin_queue_mem o pg depth _

theorem authStage_fields (env : World) (o : ExplorerOptions) (pg : PageData)
    (depth : Nat) (s : EngState) :
    (authStage env o pg depth s).visited = s.visited ∧
    (authStage env o pg depth s).results = s.results := by
  unfold authStage
  by_cases hg : (pg.isLoginPage && !s.authenticated) = true
  · rw [if_pos hg]
    rcases hc : s.credentials with _ | cr
    · exact promptFlow_fields env o pg depth s
    · obtain ⟨ha, hb, _, _⟩ := attemptLogin_fields o pg depth s
      exact ⟨ha, hb⟩
  · rw [if_neg hg]; exact ⟨rfl, rfl⟩

theorem authStage_queue_mem (env : World) (o : ExplorerOptions) (pg : PageData)
    (depth : Nat) (s : EngState) :
    ∀ e ∈ (authStage env o pg depth s).queue,
      e ∈ s.queue ∨ (e.2 = depth + 1 ∧ e.1 ∉ s.visited) := by
  unfold authStage
  by_cases hg : (pg.isLoginPage && !s.authenticated) = true
  · rw [if_pos hg]
    rcases hc : s.credentials with _ | cr
    · exact promptFlow_queue_mem env o pg depth s
    · exact attemptLogin_queue_mem o pg depth s
  · rw [if_neg hg]; exact fun e he => Or.inl he

theorem preLinkStage_fields (o : ExplorerOptions) (pg : PageData) (depth : Nat)
    (s : EngState) :
    (preLinkStage o pg depth s).visited = s.visited ∧
    (preLinkStage o pg depth s).results = s.results ∧
    (preLinkStage o pg depth s).authenticated = s.authenticated ∧
    (preLinkStage o pg depth s).credentials = s.credentials ∧
    (preLinkStage o pg depth s).promptEvents = s.promptEvents := by
  unfold preLinkStage
  by_cases h : depth < o.maxDepth
  · rw [if_pos h]; exact enqueueLinks_fields _ _ _
  · rw [if_neg h]; exact ⟨rfl, rfl, rfl, rfl, rfl⟩

theorem preLinkStage_queue_mem (o : ExplorerOptions) (pg : PageData)
    (depth : Nat) (s : EngState) :
    ∀ e ∈ (preLinkStage o pg depth s).queue,
      e ∈ s.queue ∨ (e.2 = depth + 1 ∧ e.1 ∉ s.visited) := by
  unfold preLinkStage
  by_cases h : depth < o.maxDepth
  · rw [if_pos h]; exact enqueueLinks_queue_mem _ _ _
  · rw [if_neg h]; exact fun e he => Or.inl he

theorem captureUrl_pres (env : World) (o : ExplorerOptions) (s : EngState)
    (url : List Char) (depth : Nat) :
    (captureUrl env o s url depth).1.visited = s.visited ∧
    (captureUrl env o s url depth).1.results = s.results := by
  unfold captureUrl
  cases hnav : env.nav url with
  | fail msg => exact ⟨rfl, rfl⟩
  | ok pg =>
    dsimp only
    by_cases hl : pg.isLoginPage = true
    · rw [if_pos hl]
      obtain ⟨a1, a2⟩ := authStage_fields env o pg depth
        (preLinkStage o pg depth { s with loginPageUrls := s.loginPageUrls ++ [url] })
      obtain ⟨p1, p2, _, _, _⟩ := preLinkStage_fields o pg depth
        { s with loginPageUrls := s.loginPageUrls ++ [url] }
      exact ⟨a1.trans p1, a2.trans p2⟩
    · rw [if_neg hl]
      obtain ⟨a1, a2⟩ := authStage_fields env o pg depth (preLinkStage o pg depth s)
      obtain ⟨p1, p2, _, _, _⟩ := preLinkStage_fields o pg depth s
      exact ⟨a1.trans p1, a2.trans p2⟩

theorem captureUrl_queue_mem (env : World) (o : ExplorerOptions) (s : EngState)
    (url : List Char) (depth : Nat) :
    ∀ e ∈ (captureUrl env o s url depth).1.queue,
      e ∈ s.queue ∨ (e.2 = depth + 1 ∧ e.1 ∉ s.visited) := by
  unfold captureUrl
  cases hnav : env.nav url with
  | fail msg => exact fun e he => Or.inl he
  | ok pg =>
    dsimp only
    by_cases hl : pg.isLoginPage = true
    · rw [if_pos hl]
      intro e he
      obtain ⟨p1, _, _, _, _⟩ := preLinkStage_fields o pg depth
        { s with loginPageUrls := s.loginPageUrls ++ [url] }
      rcases authStage_queue_mem env o pg depth _ e he with h1 | ⟨h2a, h2b⟩
      · rcases preLinkStage_queue_mem o pg depth _ e h1 with g1 | ⟨g2a, g2b⟩
        · exact Or.inl g1
        · exact Or.inr ⟨g2a, g2b⟩
      · rw [p1] at h2b
        exact Or.inr ⟨h2a, h2b⟩
    · rw [if_neg hl]
      intro e he
      obtain ⟨p1, _, _, _, _⟩ := preLinkStage_fields o pg depth s
      rcases authStage_queue_mem env o pg depth _ e he with h1 | ⟨h2a, h2b⟩
      · rcases preLinkStage_queue_mem o pg depth _ e h1 with g1 | ⟨g2a, g2b⟩
        · exact Or.inl g1
        · exact Or.inr ⟨g2a, g2b⟩
      · rw [p1] at h2b
        exact Or.inr ⟨h2a, h2b⟩

theorem captureUrl_snd (env : World) (o : ExplorerOptions) (s : EngState)
    (url : List Char) (depth : Nat) :
    (captureUrl env o s url depth).2.url = url ∧
    (captureUrl env o s url depth).2.depth = depth := by
  unfold captureUrl
  cases env.nav url with
  | fail msg => exact ⟨rfl, rfl⟩
  | ok pg => exact ⟨rfl, rfl⟩

end Pupp

namespace Pupp

/-- The depth bound that actually holds for the frontier: every entry is at
most `maxDepth + 1` deep, and while the engine is unauthenticated every
entry is at most `maxDepth` deep.  (Entries at `maxDepth + 1` can only be
created by the post-authentication re-extraction.) -/
def QueueInv (o : ExplorerOptions) (s : EngState) : Prop :=
  ∀ e ∈ s.queue,
    e.2 ≤ o.maxDepth + 1 ∧ (s.authenticated = false → e.2 ≤ o.maxDepth)

theorem queueInv_enqueue {o : ExplorerOptions} {s : EngState}
    (links : List (List Char)) (d : Nat) (h : QueueInv o s)
    (hd1 : d ≤ o.maxDepth + 1)
    (hd2 : s.authenticated = false → d ≤ o.maxDepth) :
    QueueInv o (enqueueLinks links d s) := by
  intro e he
  obtain ⟨_, _, hauth, _, _⟩ := enqueueLinks_fields links d s
  rw [hauth]
  rcases enqueueLinks_queue_mem links d s e he with h1 | ⟨h2, _⟩
  · exact h e h1
  · rw [h2]; exact ⟨hd1, hd2⟩

theorem queueInv_preLink {o : ExplorerOptions} {s : EngState} (pg : PageData)
    (depth : Nat) (h : QueueInv o s) : QueueInv o (preLinkStage o pg depth s) := by
  unfold preLinkStage
  by_cases hlt : depth < o.maxDepth
  · rw [if_pos hlt]
    exact queueInv_enqueue _ _ h (by omega) (fun _ => by omega)
  · rw [if_neg hlt]; exact h

theorem queueInv_attempt {o : ExplorerOptions} {s : EngState} (pg : PageData)
    (depth : Nat) (h : QueueInv o s) (hd : depth ≤ o.maxDepth) :
    QueueInv o (attemptLogin o pg depth s) := by
  unfold attemptLogin
  by_cases hs : pg.loginSucceeds = true
  · rw [if_pos hs]
    refine queueInv_enqueue _ _ ?_ (by omega) ?_
    · intro e he
      exact ⟨(h e he).1, fun hf => absurd hf (by simp)⟩
    · intro hf; exact absurd hf (by simp)
  · rw [if_neg hs]; exact h

theorem queueInv_prompt {env : World} {o : ExplorerOptions} {s : EngState}
    (pg : PageData) (depth : Nat) (h : QueueInv o s) (hd : depth ≤ o.maxDepth) :
    QueueInv o (promptFlow env o pg depth s) := by
  unfold promptFlow
  by_cases h1 : (env.promptUsername s.promptEvents).isEmpty = true
  · rw [if_pos h1]
    exact fun e he => h e he
  · rw [if_neg h1]
    by_cases h2 : (env.promptPassword s.promptEvents).isEmpty = true
    · rw [if_pos h2]
      exact fun e he => h e he
    · rw [if_neg h2]
      exact queueInv_attempt _ _ (fun e he => h e he) hd

theorem queueInv_auth {env : World} {o : ExplorerOptions} {s : EngState}
    (pg : PageData) (depth : Nat) (h : QueueInv o s)
    (hd : s.authenticated = false → depth ≤ o.maxDepth) :
    QueueInv o (authStage env o pg depth s) := by
  unfold authStage
  by_cases hg : (pg.isLoginPage && !s.authenticated) = true
  · rw [if_pos hg]
    have hau : s.authenticated = false := by
      simp only [Bool.and_eq_true, Bool.not_eq_true'] at hg
      exact hg.2
    rcases hc : s.credentials with _ | cr
    · exact queueInv_prompt _ _ h (hd hau)
    · exact queueInv_attempt _ _ h (hd hau)
  · rw [if_neg hg]; exact h

theorem captureUrl_queueInv (env : World) (o : ExplorerOptions) (s : EngState)
    (url : List Char) (depth : Nat) (h : QueueInv o s)
    (hd : s.authenticated = false → depth ≤ o.maxDepth) :
    QueueInv o (captureUrl env o s url depth).1 := by
  unfold captureUrl
  cases hnav : env.nav url with
  | fail msg => exact h
  | ok pg =>
    dsimp only
    by_cases hl : pg.isLoginPage = true
    · rw [if_pos hl]
      refine queueInv_auth _ _ (queueInv_preLink _ _ (fun e he => h e he)) ?_
      obtain ⟨_, _, hauth, _, _⟩ := preLinkStage_fields o pg depth
        { s with loginPageUrls := s.loginPageUrls ++ [url] }
      rw [hauth]; exact hd
    · rw [if_neg hl]
      refine queueInv_auth _ _ (queueInv_preLink _ _ h) ?_
      obtain ⟨_, _, hauth, _, _⟩ := preLinkStage_fields o pg depth s
      rw [hauth]; exact hd

/-- Result-list invariant: every recorded page's normalized URL is in the
visited set, and the normalized URLs of the results are pairwise distinct. -/
def ResInv (s : EngState) : Prop :=
  (∀ r ∈ s.results, normalizeUrl r.url ∈ s.visited) ∧
  (s.results.map (fun r => normalizeUrl r.url)).Nodup

theorem resInv_step (env : World) (o : ExplorerOptions) {s s2 : EngState}
    (h : ResInv s) (hstep : loopBody env o s = some s2) : ResInv s2 := by
  unfold loopBody at hstep
  cases hq : s.queue with
  | nil => rw [hq] at hstep; exact absurd hstep (by simp)
  | cons hd rest =>
    rcases hd with ⟨url, depth⟩
    rw [hq] at hstep
    dsimp only at hstep
    by_cases hbud : s.results.length < o.maxPages
    · rw [if_pos hbud] at hstep
      by_cases hvis : s.visited.contains (normalizeUrl url) = true
      · rw [if_pos hvis] at hstep
        injection hstep with h2
        subst h2
        exact ⟨h.1, h.2⟩
      · rw [if_neg hvis] at hstep
        injection hstep with h2
        subst h2
        set S : EngState :=
          { s with queue := rest, visited := normalizeUrl url :: s.visited }
          with hS
        obtain ⟨hv, hr⟩ := captureUrl_pres env o S url depth
        obtain ⟨hu, _⟩ := captureUrl_snd env o S url depth
        constructor
        · intro r hrm
          show normalizeUrl r.url ∈ (captureUrl env o S url depth).1.visited
          rw [hv]
          rcases List.mem_append.mp hrm with h1 | h1
          · rw [hr] at h1
            exact List.mem_cons_of_mem _ (h.1 r h1)
          · have hre : r = (captureUrl env o S url depth).2 := by simpa using h1
            rw [hre, hu]
            exact List.mem_cons_self _ _
        · show ((_ ++ [_]).map _).Nodup
          rw [List.map_append, hr]
          have hnotin : normalizeUrl url ∉
              s.results.map (fun r => normalizeUrl r.url) := by
            intro hmem
            rcases List.mem_map.mp hmem with ⟨r, hrmem, hre⟩
            have := h.1 r hrmem
            rw [hre] at this
            exact hvis (List.elem_iff.mpr this)
          simp only [List.map_cons, List.map_nil, hu]
          rw [List.nodup_append]
          exact ⟨h.2, List.nodup_singleton _, by
            intro a ha hb
            simp only [List.mem_singleton] at hb
            rw [hb] at ha
            exact hnotin ha⟩
    · rw [if_neg hbud] at hstep
      exact absurd hstep (by simp)

theorem countInv_step (env : World) (o : ExplorerOptions) {s s2 : EngState}
    (h : s.visited.length = s.results.length)
    (hstep : loopBody env o s = some s2) :
    s2.visited.length = s2.results.length := by
  unfold loopBody at hstep
  cases hq : s.queue with
  | nil => rw [hq] at hstep; exact absurd hstep (by simp)
  | cons hd rest =>
    rcases hd with ⟨url, depth⟩
    rw [hq] at hstep
    dsimp only at hstep
    by_cases hbud : s.results.length < o.maxPages
    · rw [if_pos hbud] at hstep
      by_cases hvis : s.visited.contains (normalizeUrl url) = true
      · rw [if_pos hvis] at hstep
        injection hstep with h2
        subst h2
        exact h
      · rw [if_neg hvis] at hstep
        injection hstep with h2
        subst h2
        set S : EngState :=
          { s with queue := rest, visited := normalizeUrl url :: s.visited }
          with hS
        obtain ⟨hv, hr⟩ := captureUrl_pres env o S url depth
        show (captureUrl env o S url depth).1.visited.length =
          ((captureUrl env o S url depth).1.results ++
            [(captureUrl env o S url depth).2]).length
        rw [hv, hr]
        simp [h]
    · rw [if_neg hbud] at hstep
      exact absurd hstep (by simp)

theorem loopFuel_inv (env : World) (o : ExplorerOptions) (P : EngState → Prop)
    (hstep : ∀ s s2, P s → loopBody env o s = some s2 → P s2) :
    ∀ fuel s s2, P s → loopFuel env o fuel s = some s2 → P s2 := by
  intro fuel
  induction fuel with
  | zero =>
    intro s s2 _ hf
    exact absurd hf (by simp [loopFuel])
  | succ n ih =>
    intro s s2 hp hf
    unfold loopFuel at hf
    cases hb : loopBody env o s with
    | none =>
      rw [hb] at hf
      injection hf with h2
      subst h2
      exact hp
    | some s3 =>
      rw [hb] at hf
      exact ih s3 s2 (hstep s s3 hp hb) hf

end Pupp

/-- C1 counterexample world: the seed is a login page, credentials are
supplied, login succeeds, and the post-login re-extraction finds `/p`. -/
def envC1 : Pupp.World where
  nav u :=
    if u = "http://s.test".data then
      .ok ⟨true, [], ["/p".data], true⟩
    else if u = "http://s.test/p".data then .ok ⟨false, [], [], false⟩
    else .fail "nav error".data
  promptUsername _ := []
  promptPassword _ := []

def optsC1 : Pupp.ExplorerOptions :=
  ⟨"http://s.test/".data, 0, 10, [], some ("u".data, "pw".data), [⟨800, 600⟩]⟩

/-- C1 counterexample: with `maxDepth = 0`, the links re-extracted after
the successful authentication on the seed login page are enqueued at depth
1 > `maxDepth` (the source performs no depth check on the post-login
enqueue): the first scheduler step leaves a frontier entry at depth 1, and
the completed run captures a page at depth 1. -/
theorem C1_counterexample :
    (Pupp.explore envC1 optsC1 10).map
        (fun r => r.results.map (fun x => x.depth)) = some [0, 1] ∧
    optsC1.maxDepth = 0 ∧
    (Pupp.loopBody envC1 optsC1 (Pupp.initState optsC1)).map (fun s => s.queue) =
      some [("http://s.test/p".data, 1)] := by
  refine ⟨by decide, rfl, by decide⟩

/-- C1 amended: the depth bound that does hold.  The initial frontier
satisfies it and every scheduler step preserves it, so in every reachable
state each frontier entry has depth at most `maxDepth + 1`, and at most
`maxDepth` while the engine is unauthenticated: the pre-authentication
extraction never enqueues past `maxDepth`; only the links re-extracted
after the single successful login can be enqueued one level past it. -/
theorem C1_depth_invariant (env : Pupp.World) (o : Pupp.ExplorerOptions) :
    Pupp.QueueInv o (Pupp.initState o) ∧
    ∀ s s2, Pupp.QueueInv o s → Pupp.loopBody env o s = some s2 →
      Pupp.QueueInv o s2 := by
  constructor
  · intro e he
    simp only [Pupp.initState, List.mem_singleton] at he
    subst he
    exact ⟨Nat.zero_le _, fun _ => Nat.zero_le _⟩
  · intro s s2 hinv hstep
    unfold Pupp.loopBody at hstep
    cases hq : s.queue with
    | nil => rw [hq] at hstep; exact absurd hstep (by simp)
    | cons hd rest =>
      rcases hd with ⟨url, depth⟩
      rw [hq] at hstep
      dsimp only at hstep
      by_cases hbud : s.results.length < o.maxPages
      · rw [if_pos hbud] at hstep
        by_cases hvis : s.visited.contains (Pupp.normalizeUrl url) = true
        · rw [if_pos hvis] at hstep
          injection hstep with h2
          subst h2
          intro e he
          have hmem : e ∈ s.queue := by
            rw [hq]; exact List.mem_cons_of_mem _ he
          exact hinv e hmem
        · rw [if_neg hvis] at hstep
          injection hstep with h2
          subst h2
          set S : Pupp.EngState :=
            { s with queue := rest, visited := Pupp.normalizeUrl url :: s.visited }
            with hS
          have hSinv : Pupp.QueueInv o S := by
            intro e he
            have hmem : e ∈ s.queue := by
              rw [hq]; exact List.mem_cons_of_mem _ he
            exact hinv e hmem
          have hd0 : S.authenticated = false → depth ≤ o.maxDepth := by
            intro hf
            have hmem : (url, depth) ∈ s.queue := by
              rw [hq]; exact List.mem_cons_self _ _
            exact (hinv _ hmem).2 hf
          have hmain := Pupp.captureUrl_queueInv env o S url depth hSinv hd0
          intro e he
          exact hmain e he
      · rw [if_neg hbud] at hstep
        exact absurd hstep (by simp)

/-- C1 witness world: an ordinary page with one link and room in both
budgets. -/
def envW1 : Pupp.World where
  nav u :=
    if u = "http://w1.test".data then .ok ⟨false, ["/x".data], [], false⟩
    else .fail "nav error".data
  promptUsername _ := []
  promptPassword _ := []

def optsW1 : Pupp.ExplorerOptions :=
  ⟨"http://w1.test/".data, 2, 10, [], none, []⟩

def c1WitnessState : Pupp.EngState :=
  (Pupp.loopBody envW1 optsW1 (Pupp.initState optsW1)).getD
    (Pupp.initState optsW1)

/-- C1 witness: the depth invariant instantiated on the state after one
concrete scheduler step. -/
theorem C1_witness : Pupp.QueueInv optsW1 c1WitnessState :=
  (C1_depth_invariant envW1 optsW1).2 (Pupp.initState optsW1) c1WitnessState
    (C1_depth_invariant envW1 optsW1).1 (by decide)

/-- C2: in every completed run, the result list contains at most one
PageResult per normalized URL: the normalized URLs of the recorded pages
are pairwise distinct (a URL already in the visited set is skipped at
dequeue time, and the visited set only grows). -/
theorem C2_no_duplicate_captures (env : Pupp.World) (o : Pupp.ExplorerOptions)
    (fuel : Nat) (s2 : Pupp.EngState)
    (h : Pupp.loopFuel env o fuel (Pupp.initState o) = some s2) :
    (s2.results.map (fun r => Pupp.normalizeUrl r.url)).Nodup :=
  (Pupp.loopFuel_inv env o Pupp.ResInv
    (fun s s3 hp hb => Pupp.resInv_step env o hp hb) fuel (Pupp.initState o) s2
    ⟨fun r hr => absurd hr (by simp [Pupp.initState]),
     by simp [Pupp.initState]⟩ h).2

/-- C2 witness world: a diamond: the seed links to `/a` and `/b`, and both
link back to each other and to the seed, so the same URLs are discovered
repeatedly; the completed run still captures each normalized URL once. -/
def envC2w : Pupp.World where
  nav u :=
    if u = "http://w2.test".data then
      .ok ⟨false, ["/a".data, "/b".data], [], false⟩
    else if u = "http://w2.test/a".data then
      .ok ⟨false, ["/b".data, "/".data], [], false⟩
    else if u = "http://w2.test/b".data then
      .ok ⟨false, ["/a".data, "/".data], [], false⟩
    else .fail "nav error".data
  promptUsername _ := []
  promptPassword _ := []

def optsC2w : Pupp.ExplorerOptions :=
  ⟨"http://w2.test/".data, 3, 10, [], none, []⟩

def c2FinalState : Pupp.EngState :=
  (Pupp.loopFuel envC2w optsC2w 20 (Pupp.initState optsC2w)).getD
    (Pupp.initState optsC2w)

/-- C2 witness: the no-duplicate-captures theorem instantiated on a
concrete completed run. -/
theorem C2_witness :
    (c2FinalState.results.map (fun r => Pupp.normalizeUrl r.url)).Nodup :=
  C2_no_duplicate_captures envC2w optsC2w 20 c2FinalState (by decide)

/-- C3 counterexample world: the seed links to `/a` and `/b`, and `/a`
links to `/b` again. -/
def envC3 : Pupp.World where
  nav u :=
    if u = "http://c.test".data then
      .ok ⟨false, ["/a".data, "/b".data], [], false⟩
    else if u = "http://c.test/a".data then .ok ⟨false, ["/b".data], [], false⟩
    else if u = "http://c.test/b".data then .ok ⟨false, [], [], false⟩
    else .fail "nav error".data
  promptUsername _ := []
  promptPassword _ := []

def optsC3 : Pupp.ExplorerOptions := ⟨"http://c.test/".data, 3, 10, [], none, []⟩

/-- C3 counterexample: enqueue-time suppression checks only the visited
set — there is no discovered-but-not-yet-dequeued check.  After two
scheduler steps from the initial state (a reachable state of the run), the
frontier holds two entries for the same normalized URL
`http://c.test/b`, refuting "at most one entry per normalized URL". -/
theorem C3_counterexample :
    ((Pupp.loopBody envC3 optsC3 (Pupp.initState optsC3)).bind
        (Pupp.loopBody envC3 optsC3)).map (fun s => s.queue) =
      some [("http://c.test/b".data, 1), ("http://c.test/b".data, 2)] := by
  decide

/-- C3 amended: the only enqueue-time suppression is the visited-set check:
every frontier entry present after a capture is either an entry that was
already queued, or an unvisited (at capture time) URL enqueued at the
captured page's depth + 1 — nothing prevents a URL that is already queued
but not yet dequeued from being enqueued a second time. -/
theorem C3_enqueue_suppression (env : Pupp.World) (o : Pupp.ExplorerOptions)
    (s : Pupp.EngState) (url : List Char) (depth : Nat) :
    ∀ e ∈ (Pupp.captureUrl env o s url depth).1.queue,
      e ∈ s.queue ∨ (e.2 = depth + 1 ∧ e.1 ∉ s.visited) :=
  Pupp.captureUrl_queue_mem env o s url depth

/-- C3 witness world: one page with one link, captured from an empty
state. -/
def envW3 : Pupp.World where
  nav u :=
    if u = "http://w3.test".data then .ok ⟨false, ["/x".data], [], false⟩
    else .fail "nav error".data
  promptUsername _ := []
  promptPassword _ := []

def optsW3 : Pupp.ExplorerOptions := ⟨"http://w3.test/".data, 2, 10, [], none, []⟩

def sW3 : Pupp.EngState := ⟨[], [], [], false, none, [], 0⟩

/-- C3 witness: the enqueue characterization instantiated on the one entry
produced by a concrete capture. -/
theorem C3_witness :
    ("http://w3.test/x".data, 1) ∈ sW3.queue ∨
      ((("http://w3.test/x".data, 1) : List Char × Nat).2 = 0 + 1 ∧
        "http://w3.test/x".data ∉ sW3.visited) :=
  C3_enqueue_suppression envW3 optsW3 sW3 "http://w3.test".data 0
    ("http://w3.test/x".data, 1) (by decide)

/-- C4 counterexample world: the spec's end-to-end scenario: the seed page
links to `/a`, `/b`, `/c` and the excluded `/logout`, with `maxDepth = 1`
and `maxPages = 3`. -/
def envC4 : Pupp.World where
  nav u :=
    if u = "https://site.test".data then
      .ok ⟨false, ["/a".data, "/b".data, "/c".data, "/logout".data], [], false⟩
    else if u = "https://site.test/a".data then .ok ⟨false, [], [], false⟩
    else if u = "https://site.test/b".data then .ok ⟨false, [], [], false⟩
    else if u = "https://site.test/c".data then .ok ⟨false, [], [], false⟩
    else .fail "nav error".data
  promptUsername _ := []
  promptPassword _ := []

def optsC4 : Pupp.ExplorerOptions :=
  ⟨"https://site.test/".data, 1, 3, ["/logout".data], none, [⟨1920, 1080⟩]⟩

/-- C4 counterexample: at completion of the scenario run the visited set
holds the three captured URLs and `/c` is still queued (and unvisited), so
the size of VisitedSet ∪ still-queued is 4 — but the report's `discovered`
is `visited.size` alone, i.e. 3, refuting both "discovered = |visited ∪
still-queued|" and "discovered ≥ 4". -/
theorem C4_counterexample :
    (Pupp.loopFuel envC4 optsC4 10 (Pupp.initState optsC4)).map
        (fun s => (s.visited, s.queue, (Pupp.reportOf optsC4 s).discovered)) =
      some
        (["https://site.test/b".data, "https://site.test/a".data,
          "https://site.test".data],
         [("https://site.test/c".data, 1)], 3) := by
  decide

/-- C4 amended: the reported `discovered` count equals the size of the
VisitedSet alone — still-queued URLs are not counted — and that in turn
equals the number of PageResults, because the loop adds exactly one
visited URL per recorded page (in the maxDepth=1/maxPages=3 scenario the
report says 3, not ≥ 4). -/
theorem C4_discovered_counts (env : Pupp.World) (o : Pupp.ExplorerOptions)
    (fuel : Nat) (s2 : Pupp.EngState)
    (h : Pupp.loopFuel env o fuel (Pupp.initState o) = some s2) :
    (Pupp.reportOf o s2).discovered = s2.visited.length ∧
    (Pupp.reportOf o s2).discovered = (Pupp.reportOf o s2).results.length := by
  have hinv := Pupp.loopFuel_inv env o
    (fun s => s.visited.length = s.results.length)
    (fun s s3 hp hb => Pupp.countInv_step env o hp hb) fuel (Pupp.initState o)
    s2 (by simp [Pupp.initState]) h
  exact ⟨rfl, hinv⟩

/-- C4 witness world: a seed linking to one child. -/
def envW4 : Pupp.World where
  nav u :=
    if u = "http://w4.test".data then .ok ⟨false, ["/y".data], [], false⟩
    else if u = "http://w4.test/y".data then .ok ⟨false, [], [], false⟩
    else .fail "nav error".data
  promptUsername _ := []
  promptPassword _ := []

def optsW4 : Pupp.ExplorerOptions := ⟨"http://w4.test/".data, 2, 10, [], none, []⟩

def c4FinalState : Pupp.EngState :=
  (Pupp.loopFuel envW4 optsW4 10 (Pupp.initState optsW4)).getD
    (Pupp.initState optsW4)

/-- C4 witness: the discovered-count characterization instantiated on a
concrete completed run. -/
theorem C4_witness :
    (Pupp.reportOf optsW4 c4FinalState).discovered =
        c4FinalState.visited.length ∧
    (Pupp.reportOf optsW4 c4FinalState).discovered =
      (Pupp.reportOf optsW4 c4FinalState).results.length :=
  C4_discovered_counts envW4 optsW4 10 c4FinalState (by decide)

/-- C5: dequeuing a fresh URL whose navigation fails appends exactly one
PageResult carrying the error message and no screenshots, enqueues nothing
(the queue simply loses the dequeued entry), marks the URL visited, leaves
every other engine field unchanged, and the loop continues (the step
yields `some`, and the appended result counts toward the page budget). -/
theorem C5_navigation_failure (env : Pupp.World) (o : Pupp.ExplorerOptions)
    (s : Pupp.EngState) (url : List Char) (depth : Nat)
    (rest : List (List Char × Nat)) (msg : List Char)
    (hq : s.queue = (url, depth) :: rest)
    (hbudget : s.results.length < o.maxPages)
    (hnew : ¬ s.visited.contains (Pupp.normalizeUrl url) = true)
    (hnav : env.nav url = .fail msg) :
    Pupp.loopBody env o s = some
      { s with
          queue := rest,
          visited := Pupp.normalizeUrl url :: s.visited,
          results := s.results ++
            [⟨url, Pupp.getPathName url, depth, [], some msg, false⟩] } := by
  unfold Pupp.loopBody
  rw [hq]
  dsimp only
  rw [if_pos hbudget, if_neg hnew]
  unfold Pupp.captureUrl
  rw [hnav]

/-- C5 witness world: every navigation fails. -/
def envW5 : Pupp.World where
  nav _ := .fail "boom".data
  promptUsername _ := []
  promptPassword _ := []

def optsW5 : Pupp.ExplorerOptions := ⟨"http://w5.test/".data, 2, 10, [], none, []⟩

def uW5 : List Char := Pupp.normalizeUrl "http://w5.test/".data

/-- C5 witness: the navigation-failure step instantiated on a concrete
initial state. -/
theorem C5_witness :
    Pupp.loopBody envW5 optsW5 (Pupp.initState optsW5) = some
      { Pupp.initState optsW5 with
          queue := [],
          visited := Pupp.normalizeUrl uW5 :: (Pupp.initState optsW5).visited,
          results := (Pupp.initState optsW5).results ++
            [⟨uW5, Pupp.getPathName uW5, 0, [], some "boom".data, false⟩] } :=
  C5_navigation_failure envW5 optsW5 (Pupp.initState optsW5) uW5 0 []
    "boom".data (by decide) (by decide) (by decide) (by decide)

/-- C6 counterexample world: two login pages; the prompt answers are
always empty. -/
def envC6 : Pupp.World where
  nav u :=
    if u = "http://l.test".data then .ok ⟨true, ["/second".data], [], false⟩
    else if u = "http://l.test/second".data then .ok ⟨true, [], [], false⟩
    else .fail "nav error".data
  promptUsername _ := []
  promptPassword _ := "pw".data

def optsC6 : Pupp.ExplorerOptions := ⟨"http://l.test/".data, 1, 5, [], none, []⟩

/-- C6 counterexample: with no upfront credentials, an empty username
response does not latch a skip-for-this-run flag: the completed run over
two login pages records two prompt interactions, refuting "the prompt
occurs at most once per run" and "no later detected login page triggers
another prompt". -/
theorem C6_counterexample :
    (Pupp.loopFuel envC6 optsC6 10 (Pupp.initState optsC6)).map
        (fun s => s.promptEvents) = some 2 ∧
    envC6.promptUsername 0 = [] := by
  refine ⟨by decide, rfl⟩

/-- C6 amended helper: on a login page, while unauthenticated with no
stored credentials and an empty username answer, the authentication stage
only increments the prompt counter. -/
theorem authStage_prompt_empty (env : Pupp.World) (o : Pupp.ExplorerOptions)
    (pg : Pupp.PageData) (depth : Nat) (s : Pupp.EngState)
    (hlogin : pg.isLoginPage = true) (hauth : s.authenticated = false)
    (hcred : s.credentials = none)
    (hempty : env.promptUsername s.promptEvents = []) :
    Pupp.authStage env o pg depth s = { s with promptEvents := s.promptEvents + 1 } := by
  unfold Pupp.authStage
  rw [if_pos (by simp [hlogin, hauth])]
  rw [hcred]
  unfold Pupp.promptFlow
  rw [hempty]
  simp [hcred]

/-- C6 amended: the prompt fires at every dequeued login page reached
while the engine is unauthenticated and has no stored credentials; an
empty username response skips authentication for that page only, leaving
credentials unset and the engine unauthenticated, so the next login page
satisfies the same firing condition and prompts again. -/
theorem C6_prompt_refires (env : Pupp.World) (o : Pupp.ExplorerOptions)
    (s : Pupp.EngState) (url : List Char) (depth : Nat) (pg : Pupp.PageData)
    (hnav : env.nav url = .ok pg)
    (hlogin : pg.isLoginPage = true)
    (hauth : s.authenticated = false)
    (hcred : s.credentials = none)
    (hempty : env.promptUsername s.promptEvents = []) :
    (Pupp.captureUrl env o s url depth).1.promptEvents = s.promptEvents + 1 ∧
    (Pupp.captureUrl env o s url depth).1.credentials = none ∧
    (Pupp.captureUrl env o s url depth).1.authenticated = false := by
  unfold Pupp.captureUrl
  rw [hnav]
  dsimp only
  rw [if_pos hlogin]
  obtain ⟨_, _, hau2, hcr2, hpe2⟩ := Pupp.preLinkStage_fields o pg depth
    { s with loginPageUrls := s.loginPageUrls ++ [url] }
  rw [authStage_prompt_empty env o pg depth _ hlogin (hau2.trans hauth)
    (hcr2.trans hcred) (by rw [hpe2]; exact hempty)]
  refine ⟨?_, hcr2.trans hcred, hau2.trans hauth⟩
  show (Pupp.preLinkStage o pg depth _).promptEvents + 1 = s.promptEvents + 1
  rw [hpe2]

/-- C6 witness world: a single login page with an empty username answer. -/
def envW6 : Pupp.World where
  nav u :=
    if u = "http://w6.test".data then .ok ⟨true, [], [], false⟩
    else .fail "nav error".data
  promptUsername _ := []
  promptPassword _ := []

def optsW6 : Pupp.ExplorerOptions := ⟨"http://w6.test/".data, 1, 5, [], none, []⟩

def sW6 : Pupp.EngState := ⟨[], [], [], false, none, [], 0⟩

/-- C6 witness: the re-firing characterization instantiated on a concrete
login-page capture. -/
theorem C6_witness :
    (Pupp.captureUrl envW6 optsW6 sW6 "http://w6.test".data 0).1.promptEvents =
        sW6.promptEvents + 1 ∧
    (Pupp.captureUrl envW6 optsW6 sW6 "http://w6.test".data 0).1.credentials =
        none ∧
    (Pupp.captureUrl envW6 optsW6 sW6 "http://w6.test".data 0).1.authenticated =
      false :=
  C6_prompt_refires envW6 optsW6 sW6 "http://w6.test".data 0
    ⟨true, [], [], false⟩ (by decide) (by decide) (by decide) (by decide)
    (by decide)

namespace Diff

/-- A decoded PNG: dimensions and pixel buffer. -/
structure Img where
  width : Nat
  height : Nat
  pix : List Nat
deriving DecidableEq

/-- The fields of `DiffResult` from `image-diff.ts` (the fixed error texts
are modelled without the interpolated path/dimension values). -/
structure DiffResult where
  diffPixels : Nat
  totalPixels : Nat
  diffPercentage : Rat
  passed : Bool
  diffImagePath : Option (List Char)
  width : Nat
  height : Nat
  error : Option (List Char)
deriving DecidableEq

/-- Models `compareImages` from `image-diff.ts`.  The two `Option Img`
arguments are the load outcomes of the baseline and current files (`none`
models a `loadPNG` failure); `pm` is the external pixelmatch capability
(the count of differing pixels for two equally sized images).  In the
JavaScript source a zero-pixel pair would produce a NaN percentage; the
rational model yields 0 there — no claim depends on that branch. -/
def compareImages (pm : Img → Img → Nat) (baseline current : Option Img)
    (diffPath : Option (List Char)) (failureThreshold : Rat) : DiffResult :=
  match baseline with
  | none =>
    ⟨0, 0, 100, false, none, 0, 0, some "Failed to load baseline image".data⟩
  | some b =>
    match current with
    | none =>
      ⟨0, 0, 100, false, none, 0, 0, some "Failed to load current image".data⟩
    | some c =>
      if b.width ≠ c.width ∨ b.height ≠ c.height then
        ⟨0, 0, 100, false, none, b.width, b.height,
         some "Image dimensions do not match".data⟩
      else
        ⟨pm b c, b.width * b.height,
         ((pm b c : Rat) / ((b.width * b.height : Nat) : Rat)) * 100,
         decide (((pm b c : Rat) / ((b.width * b.height : Nat) : Rat)) * 100
           ≤ failureThreshold),
         (match diffPath with
          | some p => if pm b c > 0 then some p else none
          | none => none),
         b.width, b.height, none⟩

inductive CompStatus where
  | passed
  | failed
  | new
  | missing
  | error
deriving DecidableEq

/-- One entry of the comparison report: the status classification plus the
diff fields (the name/path bookkeeping fields of the source record are
omitted). -/
structure ComparisonResult where
  status : CompStatus
  diff : DiffResult
deriving DecidableEq

/-- Which trees a relative path is present in, with the load outcome of
each present side.  `runComparison` iterates the union of the two trees,
so at least one side is always present. -/
inductive PairSrc where
  | onlyCurrent (c : Option Img)
  | onlyBaseline (b : Option Img)
  | both (b c : Option Img)

/-- Models the per-relative-path classification of `runComparison` in
`comparison-engine.ts`: present only in current → `new`; present only in
baseline → `missing`; present in both → `compareImages`, then `error` when
its error field is set, else `passed`/`failed` from its threshold verdict. -/
def classifyPair (pm : Img → Img → Nat) (failureThreshold : Rat)
    (diffPath : Option (List Char)) : PairSrc → ComparisonResult
  | .onlyCurrent _ => ⟨.new, ⟨0, 0, 0, false, none, 0, 0, none⟩⟩
  | .onlyBaseline _ => ⟨.missing, ⟨0, 0, 0, false, none, 0, 0, none⟩⟩
  | .both b c =>
    let d := compareImages pm b c diffPath failureThreshold
    ⟨if d.error.isSome then .error else if d.passed then .passed else .failed, d⟩

end Diff

/-- C9 counterexample: for a pair present in both trees with mismatched
dimensions (1×1 vs 2×2), the classification is status `error` — but the
result does carry a numeric diff percentage, the hard-coded sentinel 100,
refuting "never a numeric diff percentage". -/
theorem C9_counterexample :
    (Diff.classifyPair (fun _ _ => 0) 0 none
        (.both (some ⟨1, 1, [0]⟩) (some ⟨2, 2, [0, 0, 0, 0]⟩))).status =
      Diff.CompStatus.error ∧
    (Diff.classifyPair (fun _ _ => 0) 0 none
        (.both (some ⟨1, 1, [0]⟩) (some ⟨2, 2, [0, 0, 0, 0]⟩))).diff.diffPercentage =
      100 := by
  exact ⟨by decide, by decide⟩

/-- C9 amended: for every pair present in both trees whose images load with
differing dimensions, the Comparison Engine produces status `error` and
runs no pixel diff: `diffPixels = 0`, `totalPixels = 0`, and the
`diffPercentage` field holds the fixed sentinel 100 (whole image treated
as different), not a computed pixel ratio. -/
theorem C9_dimension_mismatch (pm : Diff.Img → Diff.Img → Nat)
    (fth : Rat) (dp : Option (List Char)) (b c : Diff.Img)
    (hdim : b.width ≠ c.width ∨ b.height ≠ c.height) :
    (Diff.classifyPair pm fth dp (.both (some b) (some c))).status =
      Diff.CompStatus.error ∧
    (Diff.classifyPair pm fth dp (.both (some b) (some c))).diff.diffPixels = 0 ∧
    (Diff.classifyPair pm fth dp (.both (some b) (some c))).diff.totalPixels = 0 ∧
    (Diff.classifyPair pm fth dp (.both (some b) (some c))).diff.diffPercentage =
      100 := by
  unfold Diff.classifyPair Diff.compareImages
  dsimp only
  rw [if_pos hdim]
  exact ⟨rfl, rfl, rfl, rfl⟩

/-- C9 witness: the dimension-mismatch classification instantiated on a
concrete 1×2 vs 3×4 pair. -/
theorem C9_witness :
    (Diff.classifyPair (fun _ _ => 5) 1 none
        (.both (some ⟨1, 2, [0, 0]⟩) (some ⟨3, 4, []⟩))).status =
      Diff.CompStatus.error ∧
    (Diff.classifyPair (fun _ _ => 5) 1 none
        (.both (some ⟨1, 2, [0, 0]⟩) (some ⟨3, 4, []⟩))).diff.diffPixels = 0 ∧
    (Diff.classifyPair (fun _ _ => 5) 1 none
        (.both (some ⟨1, 2, [0, 0]⟩) (some ⟨3, 4, []⟩))).diff.totalPixels = 0 ∧
    (Diff.classifyPair (fun _ _ => 5) 1 none
        (.both (some ⟨1, 2, [0, 0]⟩) (some ⟨3, 4, []⟩))).diff.diffPercentage =
      100 :=
  C9_dimension_mismatch (fun _ _ => 5) 1 none ⟨1, 2, [0, 0]⟩ ⟨3, 4, []⟩
    (by decide)
